import Mathlib

/-!
Verification of uuidgen: bounded and timer-driven UUID emission with cooperative cancellation

Shallow embedding of `main.go` (package main of mradile/uuidgen).

* `printUUID`, `amount`, `ticker` are the Go functions of the same name, written
  as pure functions over an explicit `World` (standard output and the number of
  calls made to `uuid.NewRandom`).
* The identifier source `uuid.NewRandom` is an oracle `Source`: the result of its
  k-th call.
* `ctx.Done()` in `amount` is polled by a `select` with a `default` branch; the
  context is an oracle giving, for the k-th poll, whether the channel is closed.
* `ticker` blocks in a two-way `select`; what the select sees each time it is
  evaluated is a `Ready` record, and the loop is run over the list of those.
* `handleSignals` is a transition system over interrupts, the teardown function
  and steps of the listener goroutine.
-/

namespace UUIDGen

/-! ## Values -/

/-- Identifier returned by `uuid.NewRandom` (a 16-byte array in the library), kept
as the number it encodes. -/
structure UUID where
  val : Nat
deriving DecidableEq, Repr

/-- Non-nil Go `error` value. -/
structure Error where
  msg : String
deriving DecidableEq, Repr

/-- One write to standard output. -/
inductive Line
  | id (u : UUID)
  | text (s : String)
deriving DecidableEq, Repr

/-- Identifier source: the result of the k-th call (counted from 0) of
`uuid.NewRandom` in this process. -/
abbrev Source := Nat → Except Error UUID

/-- Observable effects of the main flow: lines printed and calls made to the
identifier source. -/
structure World where
  out : List Line
  requests : Nat
deriving DecidableEq, Repr

/-- How a call of a Go function stands: it returned an `error` value (`none` is
`nil`), it panicked, or it has not returned yet. -/
inductive Outcome
  | returned (err : Option Error)
  | panicked (msg : String)
  | running
deriving DecidableEq, Repr

/-- Go `int` on a 64-bit platform: two's complement wrap-around of a result. -/
def wrapInt (x : Int) : Int := (x + 2 ^ 63) % 2 ^ 64 - 2 ^ 63

/-! ## printUUID (main.go 104-111) -/

/-- Source function `printUUID`: one call of `uuid.NewRandom`; on failure the error is
returned and nothing is printed, otherwise the identifier is printed. -/
def printUUID (src : Source) (w : World) : Option Error × World :=
  match src w.requests with
  | .error err => (some err, ⟨w.out, w.requests + 1⟩)
  | .ok u => (none, ⟨w.out ++ [Line.id u], w.requests + 1⟩)

/-! ## amount (main.go 72-88) -/

/-- Loop of `amount`. `k` counts the evaluations of the `select` so far, `i` is
the Go variable. `ctxDone k` tells whether `ctx.Done()` is closed at the k-th
evaluation. The `for` has no condition, so the recursion is on `fuel`; with no
fuel left the call is still `running`. -/
def amountLoop (ctxDone : Nat → Bool) (src : Source) (count : Int) :
    Nat → Nat → Int → World → Outcome × World
  | 0, _, _, w => (Outcome.running, w)
  | fuel + 1, k, i, w =>
    if ctxDone k then (Outcome.returned none, w)
    else if i ≥ count then (Outcome.returned none, w)
    else
      match printUUID src w with
      | (some err, w') => (Outcome.returned (some err), w')
      | (none, w') => amountLoop ctxDone src count fuel (k + 1) (wrapInt (i + 1)) w'

/-- Source function `amount(ctx, count)`, started in world `w`. -/
def amount (ctxDone : Nat → Bool) (src : Source) (count : Int) (fuel : Nat) (w : World) :
    Outcome × World :=
  amountLoop ctxDone src count fuel 0 0 w

/-- Lines printed for the identifiers `ids n, ..., ids (n + m - 1)`. -/
def idLines (ids : Nat → UUID) (n m : Nat) : List Line :=
  (List.range' n m).map (fun j => Line.id (ids j))

/-- Start of the process: nothing printed, no identifier requested. -/
def World.init : World := ⟨[], 0⟩

/-! ## The generate command (main.go 45-57) -/

/-- Value of a decimal digit, `none` for any other character. -/
def digitVal (c : Char) : Option Nat :=
  if 48 ≤ c.toNat ∧ c.toNat ≤ 57 then some (c.toNat - 48) else none

/-- Decimal digits to a number, `none` as soon as a character is not a digit. -/
def parseDigits : List Char → Nat → Option Nat
  | [], acc => some acc
  | c :: cs, acc =>
    match digitVal c with
    | none => none
    | some d => parseDigits cs (acc * 10 + d)

/-- Go standard library `strconv.Atoi` for a 64-bit `int`, by its documented
contract: an optional sign followed by one or more decimal digits, the value
within the range of `int`; anything else gives a non-nil error (syntax or
range). Both results are returned as in Go. -/
def Atoi (s : String) : Int × Option Error :=
  match s.toList with
  | [] => (0, some ⟨"invalid syntax"⟩)
  | c :: rest =>
    let body := if c = '-' ∨ c = '+' then rest else c :: rest
    match body with
    | [] => (0, some ⟨"invalid syntax"⟩)
    | d :: ds =>
      match parseDigits (d :: ds) 0 with
      | none => (0, some ⟨"invalid syntax"⟩)
      | some n =>
        if c = '-' then
          if n > 2 ^ 63 then (-(2 ^ 63), some ⟨"value out of range"⟩) else (-(n : Int), none)
        else
          if n ≥ 2 ^ 63 then (2 ^ 63 - 1, some ⟨"value out of range"⟩) else ((n : Int), none)

/-- Library call `c.Args().Get(n)`: the n-th positional argument, the empty string
when there is none. -/
def argsGet (args : List String) (n : Nat) : String := args.getD n ""

/-- Effective count computed by the action of the generate command (lines 50-54). -/
def effectiveCount (args : List String) : Int :=
  let countArg := argsGet args 0
  let r := Atoi countArg
  if r.2 ≠ none ∨ r.1 = 0 then 1 else r.1

/-- Action of the generate command (lines 49-56). -/
def generateAction (ctxDone : Nat → Bool) (src : Source) (fuel : Nat) (args : List String)
    (w : World) : Outcome × World :=
  amount ctxDone src (effectiveCount args) fuel w

/-! ## ticker (main.go 90-102) -/

/-- Case of a two-way `select`, in source order. -/
inductive Case
  | first
  | second
deriving DecidableEq, Repr

/-- Go `select` without `default` over two receive cases: `r1`, `r2` tell which
communications can proceed; when both can, the runtime picks one (`pick`); when
none can, the goroutine stays blocked (`none`). -/
def select2 (r1 r2 : Bool) (pick : Case) : Option Case :=
  match r1, r2 with
  | true, true => some pick
  | true, false => some Case.first
  | false, true => some Case.second
  | false, false => none

/-- What the `select` of `ticker` finds at one evaluation: whether `ctx.Done()` is
closed, whether a tick waits in `tick.C`, and the choice of the runtime should
both be ready. -/
structure Ready where
  done : Bool
  tick : Bool
  pick : Case
deriving DecidableEq, Repr

/-- Case taken by the `select` of `ticker`: `first` is `<-ctx.Done()`, `second` is
`<-tick.C`. -/
def Ready.taken (r : Ready) : Option Case := select2 r.done r.tick r.pick

/-- Handle returned by `time.NewTicker`. -/
structure Ticker where
  period : Int
deriving DecidableEq, Repr

/-- Go standard library `time.NewTicker`, by its documented contract: the
duration (in nanoseconds) must be greater than zero, otherwise the call
panics. -/
def NewTicker (d : Int) : Except String Ticker :=
  if d ≤ 0 then Except.error "non-positive interval for NewTicker" else Except.ok ⟨d⟩

/-- Loop of `ticker`, run over the successive evaluations of its `select`. An
evaluation where nothing is ready leaves the goroutine blocked; when the list is
used up the call is still `running`. -/
def tickerLoop (src : Source) : List Ready → World → Outcome × World
  | [], w => (Outcome.running, w)
  | r :: rs, w =>
    match r.taken with
    | none => tickerLoop src rs w
    | some Case.first => (Outcome.returned none, w)
    | some Case.second =>
      match printUUID src w with
      | (some err, w') => (Outcome.returned (some err), w')
      | (none, w') => tickerLoop src rs w'

/-- Source function `ticker(ctx, refresh)`, started in world `w`. -/
def ticker (src : Source) (refresh : Int) (waits : List Ready) (w : World) : Outcome × World :=
  match NewTicker refresh with
  | Except.error msg => (Outcome.panicked msg, w)
  | Except.ok _ => tickerLoop src waits w

/-- Number of evaluations of the `select` that take the tick case. -/
def ticksTaken (waits : List Ready) : Nat :=
  waits.countP (fun r => r.taken = some Case.second)

/-- Library call `c.Duration("refresh")` for the flag declared at lines 37-42: the
value given on the command line, else the value of the variable REFRESH, else
one second; in nanoseconds. -/
def durationFlag (flag env : Option Int) : Int :=
  match flag, env with
  | some d, _ => d
  | none, some d => d
  | none, none => 1000000000

/-- Action of the default command `infinite` (lines 33-35). -/
def infiniteAction (src : Source) (flag env : Option Int) (waits : List Ready) (w : World) :
    Outcome × World :=
  ticker src (durationFlag flag env) waits w

/-! ## main (main.go 18-70) -/

/-- Invocation forms dispatched by `app.Run`. -/
inductive Command
  | generate (args : List String)
  | infinite (flag env : Option Int)
deriving DecidableEq, Repr

/-- Everything the main flow reads from outside. -/
structure Env where
  ctxDone : Nat → Bool
  src : Source
  fuel : Nat
  waits : List Ready

/-- Library call `app.Run(os.Args)` for a recognised command: runs the action of
the command and hands back the error it returned. -/
def appRun (e : Env) (cmd : Command) (w : World) : Outcome × World :=
  match cmd with
  | Command.generate args => generateAction e.ctxDone e.src e.fuel args w
  | Command.infinite flag env => infiniteAction e.src flag env e.waits w

/-- End of the process as the main flow leaves it: what was printed and the exit
status (`none` while it has not ended). -/
structure Process where
  out : List Line
  exit : Option Nat
deriving DecidableEq, Repr

/-- Source function `main` (lines 66-70), apart from the listener: the error of `app.Run`, if any,
is printed and `main` returns, which ends a Go process with status 0; an
unrecovered panic ends it with status 2. -/
def main (e : Env) (cmd : Command) : Process :=
  match appRun e cmd World.init with
  | (Outcome.returned none, w) => ⟨w.out, some 0⟩
  | (Outcome.returned (some err), w) => ⟨w.out ++ [Line.text ("error on run: " ++ err.msg)], some 0⟩
  | (Outcome.panicked _, w) => ⟨w.out, some 2⟩
  | (Outcome.running, w) => ⟨w.out, none⟩

/-! ## handleSignals (main.go 113-136) -/

/-- Position of the listener goroutine: at the `select` (line 123), at the second
receive (line 130), or past `os.Exit(1)` (line 132). -/
inductive PC
  | first
  | second
  | exited
deriving DecidableEq, Repr

/-- State of the signal bridge. `pending`: `signalChan` (capacity 1) holds an
interrupt; `notifying`: the registration of `signal.Notify` is in force;
`ctxDone`: the context is cancelled; `exit`: status passed to `os.Exit`. -/
structure Bridge where
  pc : PC
  pending : Bool
  notifying : Bool
  ctxDone : Bool
  out : List Line
  exit : Option Nat
deriving DecidableEq, Repr

/-- Source function `handleSignals`: the state it leaves behind when it returns
(channel empty, registration in force, context live, listener started at its
`select`). The context it returns is the field `ctxDone`, the teardown function
is `Bridge.cancel`. -/
def handleSignals : Bridge := ⟨PC.first, false, true, false, [], none⟩

/-- What can happen to the bridge: the operating system delivers an interrupt, the
main flow calls the teardown function, the listener goroutine is scheduled
(`pick` is the choice of the runtime if both cases of its `select` are ready). -/
inductive Event
  | interrupt
  | teardown
  | listener (pick : Case)
deriving DecidableEq, Repr

/-- Delivery of an interrupt: package signal sends on the channel without
blocking, only while the registration is in force and the buffer has room. -/
def Bridge.interrupt (s : Bridge) : Bridge :=
  if s.notifying ∧ s.pending = false then ⟨s.pc, true, s.notifying, s.ctxDone, s.out, s.exit⟩
  else s

/-- Teardown function `cancel` (lines 117-120): `signal.Stop(signalChan)`, then
`ctxCancel()`. -/
def Bridge.cancel (s : Bridge) : Bridge :=
  ⟨s.pc, s.pending, false, true, s.out, s.exit⟩

/-- One scheduling of the listener goroutine (lines 122-133). -/
def Bridge.listener (s : Bridge) (pick : Case) : Bridge :=
  match s.pc with
  | PC.first =>
    match select2 s.pending s.ctxDone pick with
    | some Case.first =>
      ⟨PC.second, false, s.notifying, true,
        s.out ++ [Line.text "received signal, start shutdown"], s.exit⟩
    | some Case.second => ⟨PC.second, s.pending, s.notifying, s.ctxDone, s.out, s.exit⟩
    | none => s
  | PC.second =>
    if s.pending then
      ⟨PC.exited, false, s.notifying, s.ctxDone,
        s.out ++ [Line.text "received second signal, hard exit"], some 1⟩
    else s
  | PC.exited => s

/-- One event. Nothing happens any more once the process has exited. -/
def Bridge.step (s : Bridge) (ev : Event) : Bridge :=
  if s.exit.isSome then s
  else
    match ev with
    | Event.interrupt => s.interrupt
    | Event.teardown => s.cancel
    | Event.listener pick => s.listener pick

/-- A sequence of events, from left to right. -/
def Bridge.run (s : Bridge) (evs : List Event) : Bridge := evs.foldl Bridge.step s

/-! ## Lemmas on amount -/

theorem wrapInt_of_range (x : Int) (h0 : -(2 ^ 63) ≤ x) (h1 : x < 2 ^ 63) : wrapInt x = x := by
  unfold wrapInt
  omega

theorem idLines_succ (ids : Nat → UUID) (n m : Nat) :
    idLines ids n (m + 1) = Line.id (ids n) :: idLines ids (n + 1) m := by
  simp [idLines, List.range']

theorem idLines_length (ids : Nat → UUID) (n m : Nat) : (idLines ids n m).length = m := by
  simp [idLines]

/-- Running `m` iterations in which neither cancellation nor a source failure is seen. -/
theorem amountLoop_steps (ctxDone : Nat → Bool) (src : Source) (count : Int) (ids : Nat → UUID)
    (hc : count < 2 ^ 63) :
    ∀ (m n fuel : Nat) (out : List Line),
      ((n + m : Nat) : Int) ≤ count →
      (∀ j, n ≤ j → j < n + m → ctxDone j = false) →
      (∀ j, n ≤ j → j < n + m → src j = Except.ok (ids j)) →
      amountLoop ctxDone src count (fuel + m) n (n : Int) ⟨out, n⟩
        = amountLoop ctxDone src count fuel (n + m) ((n + m : Nat) : Int)
            ⟨out ++ idLines ids n m, n + m⟩ := by
  intro m
  induction m with
  | zero =>
    intro n fuel out _ _ _
    simp [idLines]
  | succ m ih =>
    intro n fuel out hle hd hs
    have hd0 : ctxDone n = false := hd n (le_refl _) (by omega)
    have hs0 : src n = Except.ok (ids n) := hs n (le_refl _) (by omega)
    have hlt : ¬ ((n : Int) ≥ count) := by push_cast at hle; omega
    have hw : wrapInt ((n : Int) + 1) = ((n + 1 : Nat) : Int) := by
      rw [wrapInt_of_range] <;> push_cast at hle ⊢ <;> omega
    have hfuel : fuel + (m + 1) = (fuel + m) + 1 := by omega
    rw [hfuel, amountLoop]
    simp only [hd0, hlt, printUUID, hs0, hw, if_false, Bool.false_eq_true]
    have := ih (n + 1) fuel (out ++ [Line.id (ids n)]) (by push_cast at hle ⊢; omega)
      (fun j h1 h2 => hd j (by omega) (by omega))
      (fun j h1 h2 => hs j (by omega) (by omega))
    rw [this, idLines_succ]
    have e1 : n + 1 + m = n + (m + 1) := by omega
    simp [e1]


/-! ## Lemmas on ticker -/

theorem ticksTaken_cons (r : Ready) (rs : List Ready) :
    ticksTaken (r :: rs) = ticksTaken rs + (if r.taken = some Case.second then 1 else 0) := by
  simp [ticksTaken, List.countP_cons]

/-- Events after a still running call continue it from the world it reached. -/
theorem tickerLoop_append (src : Source) :
    ∀ (pre rest : List Ready) (w w' : World),
      tickerLoop src pre w = (Outcome.running, w') →
      tickerLoop src (pre ++ rest) w = tickerLoop src rest w' := by
  intro pre
  induction pre with
  | nil =>
    intro rest w w' h
    simp only [tickerLoop, Prod.mk.injEq, true_and] at h
    simp [h]
  | cons r rs ih =>
    intro rest w w' h
    simp only [List.cons_append, tickerLoop] at h ⊢
    cases ht : r.taken with
    | none =>
      simp only [ht] at h ⊢
      exact ih rest w w' h
    | some c =>
      cases c with
      | first => simp [ht] at h
      | second =>
        simp only [ht] at h ⊢
        rcases hp : printUUID src w with ⟨e, w2⟩
        cases e with
        | some err => simp [hp] at h
        | none =>
          simp only [hp] at h ⊢
          exact ih rest w2 w' h

/-- The loop of `ticker` has no panicking step. -/
theorem tickerLoop_not_panicked (src : Source) :
    ∀ (waits : List Ready) (w : World) (msg : String),
      (tickerLoop src waits w).1 ≠ Outcome.panicked msg := by
  intro waits
  induction waits with
  | nil => intro w msg; simp [tickerLoop]
  | cons r rs ih =>
    intro w msg
    simp only [tickerLoop]
    cases ht : r.taken with
    | none => exact ih w msg
    | some c =>
      cases c with
      | first => simp
      | second =>
        rcases hp : printUUID src w with ⟨e, w2⟩
        cases e with
        | some err => simp
        | none => exact ih w2 msg

/-- While the cancellation case is never taken and the source succeeds, one
identifier is emitted per tick taken and the call keeps running. -/
theorem tickerLoop_ticks (src : Source) (ids : Nat → UUID)
    (hsrc : ∀ k, src k = Except.ok (ids k)) :
    ∀ (pre : List Ready) (out : List Line) (n : Nat),
      (∀ r ∈ pre, r.taken ≠ some Case.first) →
      tickerLoop src pre ⟨out, n⟩
        = (Outcome.running, ⟨out ++ idLines ids n (ticksTaken pre), n + ticksTaken pre⟩) := by
  intro pre
  induction pre with
  | nil => intro out n _; simp [tickerLoop, ticksTaken, idLines]
  | cons r rs ih =>
    intro out n h
    have hr : r.taken ≠ some Case.first := h r (List.mem_cons_self _ _)
    have hrs : ∀ x ∈ rs, x.taken ≠ some Case.first := fun x hx => h x (List.mem_cons_of_mem _ hx)
    rw [ticksTaken_cons]
    simp only [tickerLoop]
    cases ht : r.taken with
    | none => simpa using ih out n hrs
    | some c =>
      cases c with
      | first => exact absurd ht hr
      | second =>
        simp only [printUUID, hsrc n, if_true]
        rw [ih (out ++ [Line.id (ids n)]) (n + 1) hrs]
        have e1 : ticksTaken rs + 1 = (ticksTaken rs).succ := rfl
        have e2 : n + 1 + ticksTaken rs = n + (ticksTaken rs + 1) := by omega
        rw [idLines_succ, e2]
        simp

theorem ticker_of_pos (src : Source) (refresh : Int) (waits : List Ready) (w : World)
    (hpos : 0 < refresh) : ticker src refresh waits w = tickerLoop src waits w := by
  have h : ¬ (refresh ≤ 0) := by omega
  simp [ticker, NewTicker, h]

/-! ## Lemmas on the signal bridge -/

theorem Bridge.run_nil (s : Bridge) : s.run [] = s := rfl

theorem Bridge.run_cons (s : Bridge) (ev : Event) (evs : List Event) :
    s.run (ev :: evs) = (s.step ev).run evs := rfl

theorem Bridge.run_append (s : Bridge) (a b : List Event) :
    s.run (a ++ b) = (s.run a).run b := by
  simp [Bridge.run, List.foldl_append]

/-- Once the process has exited no event changes the state. -/
theorem Bridge.run_of_exited (s : Bridge) (h : s.exit ≠ none) (evs : List Event) :
    s.run evs = s := by
  induction evs with
  | nil => rfl
  | cons ev evs ih =>
    have hs : s.exit.isSome = true := by
      cases he : s.exit with
      | none => exact absurd he h
      | some c => rfl
    rw [Bridge.run_cons]
    have : s.step ev = s := by simp [Bridge.step, hs]
    rw [this]
    exact ih

/-- The only step that ends the process is a step of the listener at its second
receive with an interrupt in the channel, and it ends it with status 1. -/
theorem Bridge.step_exit (s : Bridge) (ev : Event) (hlive : s.exit = none)
    (hex : (s.step ev).exit ≠ none) :
    (∃ pick, ev = Event.listener pick) ∧ s.pc = PC.second ∧ s.pending = true
      ∧ (s.step ev).exit = some 1 := by
  rcases s with ⟨pc, pending, notifying, ctxDone, out, ex⟩
  simp only at hlive
  subst hlive
  cases ev with
  | interrupt =>
    cases notifying <;> cases pending <;> simp [Bridge.step, Bridge.interrupt] at hex
  | teardown => simp [Bridge.step, Bridge.cancel] at hex
  | listener pick =>
    cases pc <;> cases pending <;> cases ctxDone <;> cases pick <;>
      simp [Bridge.step, Bridge.listener, select2] at hex ⊢

/-- Every forced exit in a run comes from an interrupt received at the second
receive. -/
theorem Bridge.run_exit (evs : List Event) :
    ∀ s : Bridge, s.exit = none → (s.run evs).exit ≠ none →
      ∃ pre pick post, evs = pre ++ Event.listener pick :: post
        ∧ (s.run pre).exit = none ∧ (s.run pre).pc = PC.second
        ∧ (s.run pre).pending = true ∧ (s.run evs).exit = some 1 := by
  induction evs with
  | nil => intro s hlive hex; exact absurd hlive hex
  | cons ev evs ih =>
    intro s hlive hex
    rw [Bridge.run_cons] at hex ⊢
    by_cases hstep : (s.step ev).exit = none
    · obtain ⟨pre, pick, post, he, h1, h2, h3, h4⟩ := ih (s.step ev) hstep hex
      exact ⟨ev :: pre, pick, post, by simp [he], by simpa [Bridge.run_cons] using h1,
        by simpa [Bridge.run_cons] using h2, by simpa [Bridge.run_cons] using h3, h4⟩
    · obtain ⟨⟨pick, hev⟩, hpc, hpend, hone⟩ := Bridge.step_exit s ev hlive hstep
      refine ⟨[], pick, evs, by simp [hev], hlive, hpc, hpend, ?_⟩
      rw [Bridge.run_of_exited _ hstep]
      exact hone

/-- As long as the teardown has not run, a listener still at its select has
not seen the context cancelled. -/
theorem Bridge.run_no_teardown (evs : List Event) :
    ∀ s : Bridge, Event.teardown ∉ evs → (s.pc = PC.first → s.ctxDone = false) →
      (s.run evs).pc = PC.first → (s.run evs).ctxDone = false := by
  induction evs with
  | nil => intro s _ h; exact h
  | cons ev evs ih =>
    intro s hno h
    have hev : ev ≠ Event.teardown := fun h => hno (by simp [h])
    have hrest : Event.teardown ∉ evs := fun h => hno (List.mem_cons_of_mem _ h)
    rw [Bridge.run_cons]
    apply ih (s.step ev) hrest
    rcases s with ⟨pc, pending, notifying, ctxDone, out, ex⟩
    simp only at h
    cases ev with
    | teardown => exact absurd rfl hev
    | interrupt =>
      cases ex <;> cases notifying <;> cases pending <;>
        simpa [Bridge.step, Bridge.interrupt] using h
    | listener pick =>
      cases ex <;> cases pc <;> cases pending <;> cases ctxDone <;> cases pick <;>
        simp [Bridge.step, Bridge.listener, select2] at h ⊢

/-- A step other than an interrupt, with an empty channel: nothing is received,
printed or exited. -/
theorem Bridge.step_quiet (s : Bridge) (ev : Event) (hev : ev ≠ Event.interrupt)
    (h1 : s.exit = none) (h2 : s.pending = false) (h3 : s.pc ≠ PC.exited) :
    (s.step ev).exit = none ∧ (s.step ev).pending = false ∧ (s.step ev).pc ≠ PC.exited
      ∧ (s.step ev).out = s.out := by
  rcases s with ⟨pc, pending, notifying, ctxDone, out, ex⟩
  simp only at h1 h2 h3
  subst h1 h2
  cases ev with
  | interrupt => exact absurd rfl hev
  | teardown => simpa [Bridge.step, Bridge.cancel] using h3
  | listener pick =>
    cases pc <;> cases ctxDone <;> simp [Bridge.step, Bridge.listener, select2] at h3 ⊢

/-- Without an interrupt, nothing is received, printed or exited. -/
theorem Bridge.run_quiet (evs : List Event) :
    ∀ s : Bridge, Event.interrupt ∉ evs →
      s.exit = none → s.pending = false → s.pc ≠ PC.exited →
      (s.run evs).exit = none ∧ (s.run evs).pending = false ∧ (s.run evs).pc ≠ PC.exited
        ∧ (s.run evs).out = s.out := by
  induction evs with
  | nil => intro s _ h1 h2 h3; exact ⟨h1, h2, h3, rfl⟩
  | cons ev evs ih =>
    intro s hno h1 h2 h3
    have hev : ev ≠ Event.interrupt := fun h => hno (by simp [h])
    have hrest : Event.interrupt ∉ evs := fun h => hno (List.mem_cons_of_mem _ h)
    obtain ⟨a, b, c, d⟩ := Bridge.step_quiet s ev hev h1 h2 h3
    obtain ⟨a2, b2, c2, d2⟩ := ih (s.step ev) hrest a b c
    rw [Bridge.run_cons]
    exact ⟨a2, b2, c2, d2.trans d⟩

/-- After the teardown with an empty channel: no event delivers an interrupt any
more, and the listener can only move to its second receive and stay there. -/
theorem Bridge.run_torn_down (evs : List Event) :
    ∀ s : Bridge, s.exit = none → s.pending = false → s.notifying = false →
      s.ctxDone = true → s.pc ≠ PC.exited →
      (s.run evs).exit = none ∧ (s.run evs).pending = false ∧ (s.run evs).notifying = false
        ∧ (s.run evs).ctxDone = true ∧ (s.run evs).out = s.out
        ∧ ((s.run evs).pc = PC.first ∨ (s.run evs).pc = PC.second)
        ∧ ((s.pc = PC.second ∨ ∃ pick, Event.listener pick ∈ evs) → (s.run evs).pc = PC.second) := by
  induction evs with
  | nil =>
    intro s h1 h2 h3 h4 h5
    refine ⟨h1, h2, h3, h4, rfl, ?_, ?_⟩
    · rw [Bridge.run_nil]; cases hp : s.pc <;> simp_all
    · rintro (h | ⟨pick, h⟩)
      · exact h
      · simp at h
  | cons ev evs ih =>
    intro s h1 h2 h3 h4 h5
    rcases s with ⟨pc, pending, notifying, ctxDone, out, ex⟩
    simp only at h1 h2 h3 h4 h5
    subst h1 h2 h3 h4
    rw [Bridge.run_cons]
    cases ev with
    | interrupt =>
      have hst : Bridge.step ⟨pc, false, false, true, out, none⟩ Event.interrupt
          = ⟨pc, false, false, true, out, none⟩ := by
        simp [Bridge.step, Bridge.interrupt]
      rw [hst]
      obtain ⟨a, b, c, d, e, f, g⟩ := ih ⟨pc, false, false, true, out, none⟩ rfl rfl rfl rfl h5
      refine ⟨a, b, c, d, e, f, ?_⟩
      rintro (h | ⟨pick, h⟩)
      · exact g (Or.inl h)
      · simp only [List.mem_cons] at h
        rcases h with h | h
        · cases h
        · exact g (Or.inr ⟨pick, h⟩)
    | teardown =>
      have hst : Bridge.step ⟨pc, false, false, true, out, none⟩ Event.teardown
          = ⟨pc, false, false, true, out, none⟩ := by
        simp [Bridge.step, Bridge.cancel]
      rw [hst]
      obtain ⟨a, b, c, d, e, f, g⟩ := ih ⟨pc, false, false, true, out, none⟩ rfl rfl rfl rfl h5
      refine ⟨a, b, c, d, e, f, ?_⟩
      rintro (h | ⟨pick, h⟩)
      · exact g (Or.inl h)
      · simp only [List.mem_cons] at h
        rcases h with h | h
        · cases h
        · exact g (Or.inr ⟨pick, h⟩)
    | listener pick =>
      have hst : Bridge.step ⟨pc, false, false, true, out, none⟩ (Event.listener pick)
          = ⟨PC.second, false, false, true, out, none⟩ := by
        cases pc
        · simp [Bridge.step, Bridge.listener, select2]
        · simp [Bridge.step, Bridge.listener]
        · exact absurd rfl h5
      rw [hst]
      obtain ⟨a, b, c, d, e, f, g⟩ :=
        ih ⟨PC.second, false, false, true, out, none⟩ rfl rfl rfl rfl (by simp)
      exact ⟨a, b, c, d, e, f, fun _ => g (Or.inl rfl)⟩

/-! ## Claims on amount -/

/-- C1: for every count N > 0 (a Go int), when cancellation is never seen and the
identifier source never fails, `amount` returns nil (given more fuel than N)
after exactly N requests and N emitted identifiers, in the order the source
produced them; after f <= N iterations exactly f identifiers have been
requested and emitted, one per iteration. -/
theorem amount_emits_exactly_count (ctxDone : Nat → Bool) (src : Source) (ids : Nat → UUID)
    (n fuel : Nat) (_hpos : 0 < n) (hint : (n : Int) < 2 ^ 63)
    (hctx : ∀ k, ctxDone k = false) (hsrc : ∀ k, src k = Except.ok (ids k))
    (hfuel : n < fuel) :
    amount ctxDone src (n : Int) fuel World.init
        = (Outcome.returned none, ⟨idLines ids 0 n, n⟩)
      ∧ (amount ctxDone src (n : Int) fuel World.init).2.out.length = n
      ∧ (amount ctxDone src (n : Int) fuel World.init).2.requests = n
      ∧ ∀ f, f ≤ n →
          amount ctxDone src (n : Int) f World.init = (Outcome.running, ⟨idLines ids 0 f, f⟩) := by
  have hrun : ∀ f g, f ≤ n →
      amountLoop ctxDone src (n : Int) (g + f) 0 0 ⟨[], 0⟩
        = amountLoop ctxDone src (n : Int) g f (f : Int) ⟨idLines ids 0 f, f⟩ := by
    intro f g hf
    have h := amountLoop_steps ctxDone src (n : Int) ids hint f 0 g []
      (by push_cast; omega) (fun j _ _ => hctx j) (fun j _ _ => hsrc j)
    simpa using h
  have hmain : amount ctxDone src (n : Int) fuel World.init
      = (Outcome.returned none, ⟨idLines ids 0 n, n⟩) := by
    obtain ⟨g, rfl⟩ : ∃ g, fuel = (g + 1) + n := ⟨fuel - n - 1, by omega⟩
    unfold amount World.init
    rw [hrun n (g + 1) (le_refl _), amountLoop]
    simp [hctx n]
  refine ⟨hmain, ?_, ?_, ?_⟩
  · rw [hmain]; simp [idLines_length]
  · rw [hmain]
  · intro f hf
    unfold amount World.init
    have h := hrun f 0 hf
    simp only [Nat.zero_add] at h
    rw [h, amountLoop]

/-- Witness of C1 at N = 3 with fuel 4. -/
theorem amount_emits_exactly_count_witness :
    amount (fun _ => false) (fun k => Except.ok ⟨k⟩) ((3 : Nat) : Int) 4 World.init
        = (Outcome.returned none, ⟨idLines (fun k => ⟨k⟩) 0 3, 3⟩) :=
  (amount_emits_exactly_count (fun _ => false) (fun k => Except.ok ⟨k⟩) (fun k => ⟨k⟩) 3 4
    (by decide) (by norm_num) (fun _ => rfl) (fun _ => rfl) (by decide)).1

/-- C3: for every count N (a Go int) and every k with 1 <= k <= N, if
cancellation is not seen and the identifier source succeeds on its first k-1
requests and fails with `err` on the k-th, then `amount` (given fuel for k
iterations) returns exactly `err`, having emitted exactly the k-1 identifiers
obtained and made exactly k requests. -/
theorem amount_source_failure (ctxDone : Nat → Bool) (src : Source) (ids : Nat → UUID)
    (count : Int) (k fuel : Nat) (err : Error)
    (hk : 1 ≤ k) (hkN : (k : Int) ≤ count) (hint : count < 2 ^ 63)
    (hctx : ∀ j, ctxDone j = false)
    (hok : ∀ j, j + 1 < k → src j = Except.ok (ids j))
    (hfail : src (k - 1) = Except.error err)
    (hfuel : k ≤ fuel) :
    amount ctxDone src count fuel World.init
        = (Outcome.returned (some err), ⟨idLines ids 0 (k - 1), k⟩)
      ∧ (amount ctxDone src count fuel World.init).2.out.length = k - 1
      ∧ (amount ctxDone src count fuel World.init).2.requests = k := by
  have hmain : amount ctxDone src count fuel World.init
      = (Outcome.returned (some err), ⟨idLines ids 0 (k - 1), k⟩) := by
    obtain ⟨g, rfl⟩ : ∃ g, fuel = (g + 1) + (k - 1) := ⟨fuel - k, by omega⟩
    have h := amountLoop_steps ctxDone src count ids hint (k - 1) 0 (g + 1) []
      (by push_cast; omega) (fun j _ _ => hctx j) (fun j _ h2 => hok j (by omega))
    simp only [Nat.zero_add, List.nil_append, Nat.cast_zero] at h
    unfold amount World.init
    rw [h, amountLoop]
    have hlt : ¬ (((k - 1 : Nat) : Int) ≥ count) := by omega
    have hk1 : k - 1 + 1 = k := by omega
    simp [hctx (k - 1), hlt, printUUID, hfail, hk1]
  refine ⟨hmain, ?_, ?_⟩
  · rw [hmain]; simp [idLines_length]
  · rw [hmain]

/-- Witness of C3: count 5, the third request fails. -/
theorem amount_source_failure_witness :
    amount (fun _ => false)
        (fun j => if j = 2 then Except.error ⟨"no entropy"⟩ else Except.ok ⟨j⟩) 5 3 World.init
        = (Outcome.returned (some ⟨"no entropy"⟩), ⟨idLines (fun k => ⟨k⟩) 0 (3 - 1), 3⟩)
      ∧ (amount (fun _ => false)
          (fun j => if j = 2 then Except.error ⟨"no entropy"⟩ else Except.ok ⟨j⟩) 5 3
          World.init).2.out.length = 3 - 1
      ∧ (amount (fun _ => false)
          (fun j => if j = 2 then Except.error ⟨"no entropy"⟩ else Except.ok ⟨j⟩) 5 3
          World.init).2.requests = 3 :=
  amount_source_failure (fun _ => false)
    (fun j => if j = 2 then Except.error ⟨"no entropy"⟩ else Except.ok ⟨j⟩) (fun k => ⟨k⟩)
    5 3 3 ⟨"no entropy"⟩ (by decide) (by decide) (by norm_num) (fun _ => rfl)
    (fun j hj => by have : j ≠ 2 := by omega
                    simp [this])
    (by simp) (by decide)

/-- C4: for every count N (a Go int), if the check that begins iteration i
(0 <= i < N) is reached (no earlier check saw cancellation, the first i requests
succeeded) and sees cancellation, `amount` returns nil at that check with
exactly the i identifiers emitted and i requests made; and when the very first
check sees cancellation, whatever the count and the source, nothing is requested
or emitted. -/
theorem amount_cancel_at_check (ctxDone : Nat → Bool) (src : Source) (ids : Nat → UUID)
    (count : Int) (i fuel : Nat)
    (hi : (i : Int) < count) (hint : count < 2 ^ 63)
    (hbefore : ∀ j, j < i → ctxDone j = false) (hnow : ctxDone i = true)
    (hok : ∀ j, j < i → src j = Except.ok (ids j))
    (hfuel : i < fuel) :
    amount ctxDone src count fuel World.init = (Outcome.returned none, ⟨idLines ids 0 i, i⟩)
      ∧ (amount ctxDone src count fuel World.init).2.out.length = i
      ∧ ∀ (c0 : Nat → Bool) (src0 : Source) (count0 : Int), c0 0 = true →
          amount c0 src0 count0 fuel World.init = (Outcome.returned none, World.init) := by
  have hmain : amount ctxDone src count fuel World.init
      = (Outcome.returned none, ⟨idLines ids 0 i, i⟩) := by
    obtain ⟨g, rfl⟩ : ∃ g, fuel = (g + 1) + i := ⟨fuel - i - 1, by omega⟩
    have h := amountLoop_steps ctxDone src count ids hint i 0 (g + 1) []
      (by push_cast; omega) (fun j _ h2 => hbefore j (by omega)) (fun j _ h2 => hok j (by omega))
    simp only [Nat.zero_add, List.nil_append, Nat.cast_zero] at h
    unfold amount World.init
    rw [h, amountLoop]
    simp [hnow]
  refine ⟨hmain, ?_, ?_⟩
  · rw [hmain]; simp [idLines_length]
  · intro c0 src0 count0 h0
    obtain ⟨g, rfl⟩ : ∃ g, fuel = g + 1 := ⟨fuel - 1, by omega⟩
    unfold amount
    rw [amountLoop]
    simp [h0]

/-- Witness of C4: count 5, cancellation first seen at the check of iteration 2. -/
theorem amount_cancel_at_check_witness :
    amount (fun j => decide (2 ≤ j)) (fun k => Except.ok ⟨k⟩) 5 3 World.init
        = (Outcome.returned none, ⟨idLines (fun k => ⟨k⟩) 0 2, 2⟩) :=
  (amount_cancel_at_check (fun j => decide (2 ≤ j)) (fun k => Except.ok ⟨k⟩) (fun k => ⟨k⟩)
    5 2 3 (by decide) (by norm_num)
    (fun j hj => by simp; omega) (by decide) (fun _ _ => rfl) (by decide)).1

/-! ## Claims on ticker -/

/-- C7: for every sequence of evaluations of the select of `ticker` (positive
refresh) in which, before the first one that takes the cancellation case, only
ticks are taken (or the goroutine stays blocked), and with a source that never
fails, `ticker` returns nil having emitted exactly one identifier per tick
taken and made as many requests; up to that point it is still running with
the same count; with no tick before cancellation nothing is emitted. -/
theorem ticker_one_per_tick (src : Source) (ids : Nat → UUID) (refresh : Int)
    (pre : List Ready) (d : Ready) (rest : List Ready)
    (hpos : 0 < refresh) (hsrc : ∀ k, src k = Except.ok (ids k))
    (hpre : ∀ r ∈ pre, r.taken ≠ some Case.first) (hd : d.taken = some Case.first) :
    ticker src refresh (pre ++ d :: rest) World.init
        = (Outcome.returned none, ⟨idLines ids 0 (ticksTaken pre), ticksTaken pre⟩)
      ∧ (ticker src refresh (pre ++ d :: rest) World.init).2.out.length = ticksTaken pre
      ∧ ticker src refresh pre World.init
        = (Outcome.running, ⟨idLines ids 0 (ticksTaken pre), ticksTaken pre⟩)
      ∧ ticker src refresh (d :: rest) World.init = (Outcome.returned none, World.init) := by
  have hrun := tickerLoop_ticks src ids hsrc pre [] 0 hpre
  simp only [List.nil_append, Nat.zero_add] at hrun
  have hmain : ticker src refresh (pre ++ d :: rest) World.init
      = (Outcome.returned none, ⟨idLines ids 0 (ticksTaken pre), ticksTaken pre⟩) := by
    rw [ticker_of_pos _ _ _ _ hpos]
    unfold World.init
    rw [tickerLoop_append src pre (d :: rest) _ _ hrun]
    simp [tickerLoop, hd]
  refine ⟨hmain, ?_, ?_, ?_⟩
  · rw [hmain]; simp [idLines_length]
  · rw [ticker_of_pos _ _ _ _ hpos]; exact hrun
  · rw [ticker_of_pos _ _ _ _ hpos]; simp [tickerLoop, hd]

/-- Witness of C7: a blocked evaluation, two ticks, then cancellation. -/
theorem ticker_one_per_tick_witness :
    ticker (fun k => Except.ok ⟨k⟩) 1000000000
        ([⟨false, false, Case.first⟩, ⟨false, true, Case.first⟩, ⟨false, true, Case.first⟩]
          ++ ⟨true, false, Case.first⟩ :: []) World.init
      = (Outcome.returned none, ⟨[Line.id ⟨0⟩, Line.id ⟨1⟩], 2⟩) :=
  (ticker_one_per_tick (fun k => Except.ok ⟨k⟩) (fun k => ⟨k⟩) 1000000000
    [⟨false, false, Case.first⟩, ⟨false, true, Case.first⟩, ⟨false, true, Case.first⟩]
    ⟨true, false, Case.first⟩ [] (by decide) (fun _ => rfl) (by decide) (by decide)).1

/-- C6 as stated fails: at the first wait point cancellation has been signalled
and a tick is ready; the select may take the tick, and `ticker` emits an
identifier before it returns nil at the next wait point. -/
theorem ticker_cancel_priority_counterexample :
    (⟨true, true, Case.second⟩ : Ready).done = true
      ∧ ticker (fun k => Except.ok ⟨k⟩) 1000000000
          [⟨true, true, Case.second⟩, ⟨true, false, Case.first⟩] World.init
        = (Outcome.returned none, ⟨[Line.id ⟨0⟩], 1⟩) := by
  decide

/-- C6, amended: at every wait point of `ticker` (reached with the call still
running) at which cancellation has been signalled, `ticker` returns nil without
a further request or emission if no tick is ready or if the select takes the
cancellation case; if a tick is ready and the select takes it, `ticker`
requests one more identifier and goes on (or returns the error of the
source). -/
theorem ticker_cancel_when_selected (src : Source) (refresh : Int) (pre : List Ready)
    (r : Ready) (rest : List Ready) (w w' : World)
    (hpos : 0 < refresh) (hrun : ticker src refresh pre w = (Outcome.running, w'))
    (hdone : r.done = true) :
    ((r.tick = false ∨ r.pick = Case.first) →
        ticker src refresh (pre ++ r :: rest) w = (Outcome.returned none, w'))
      ∧ ((r.tick = true ∧ r.pick = Case.second) →
        ticker src refresh (pre ++ r :: rest) w
          = match printUUID src w' with
            | (some err, w2) => (Outcome.returned (some err), w2)
            | (none, w2) => tickerLoop src rest w2) := by
  rw [ticker_of_pos _ _ _ _ hpos] at hrun ⊢
  rw [tickerLoop_append src pre (r :: rest) w w' hrun]
  constructor
  · intro hsel
    have ht : r.taken = some Case.first := by
      rcases hsel with h | h <;> cases hk : r.tick <;> simp_all [Ready.taken, select2]
    simp [tickerLoop, ht]
  · intro hsel
    have ht : r.taken = some Case.second := by
      simp [Ready.taken, select2, hdone, hsel.1, hsel.2]
    simp only [tickerLoop, ht]

/-- Witness of the amended C6: after one tick, cancellation with no tick ready. -/
theorem ticker_cancel_when_selected_witness :
    ticker (fun k => Except.ok ⟨k⟩) 1000000000
        ([⟨false, true, Case.first⟩] ++ ⟨true, false, Case.second⟩ :: []) World.init
      = (Outcome.returned none, ⟨[Line.id ⟨0⟩], 1⟩) :=
  (ticker_cancel_when_selected (fun k => Except.ok ⟨k⟩) 1000000000
    [⟨false, true, Case.first⟩] ⟨true, false, Case.second⟩ [] World.init ⟨[Line.id ⟨0⟩], 1⟩
    (by decide) (by decide) (by decide)).1 (Or.inl rfl)

/-- C10: `ticker` hands `refresh` to `time.NewTicker` unchecked. For every
refresh <= 0, whatever the events and the source, the call panics in the state
it was started in (no request, no emission), so it returns neither nil nor an
error; the action of the default command passes the flag value or the value of
REFRESH through unchanged, so both reach the panic. For every refresh > 0 the
construction succeeds and the call never panics. -/
theorem ticker_refresh_unchecked (src : Source) (refresh : Int) (waits : List Ready)
    (w : World) :
    (refresh ≤ 0 →
        ticker src refresh waits w
            = (Outcome.panicked "non-positive interval for NewTicker", w)
          ∧ (∀ err, (ticker src refresh waits w).1 ≠ Outcome.returned err)
          ∧ (∀ env, infiniteAction src (some refresh) env waits w
              = (Outcome.panicked "non-positive interval for NewTicker", w))
          ∧ infiniteAction src none (some refresh) waits w
              = (Outcome.panicked "non-positive interval for NewTicker", w))
      ∧ (0 < refresh →
          NewTicker refresh = Except.ok ⟨refresh⟩
          ∧ ticker src refresh waits w = tickerLoop src waits w
          ∧ ∀ msg, (ticker src refresh waits w).1 ≠ Outcome.panicked msg) := by
  constructor
  · intro h
    have ht : ticker src refresh waits w
        = (Outcome.panicked "non-positive interval for NewTicker", w) := by
      simp [ticker, NewTicker, h]
    refine ⟨ht, ?_, ?_, ?_⟩
    · intro err; rw [ht]; simp
    · intro env; simpa [infiniteAction, durationFlag] using ht
    · simpa [infiniteAction, durationFlag] using ht
  · intro h
    have hn : ¬ (refresh ≤ 0) := by omega
    refine ⟨by simp [NewTicker, hn], ticker_of_pos _ _ _ _ h, ?_⟩
    intro msg
    rw [ticker_of_pos _ _ _ _ h]
    exact tickerLoop_not_panicked src waits w msg

/-- Witness of C10 at refresh = 0 with a tick and a cancellation ready. -/
theorem ticker_refresh_unchecked_witness :
    ticker (fun k => Except.ok ⟨k⟩) 0 [⟨true, true, Case.first⟩] World.init
      = (Outcome.panicked "non-positive interval for NewTicker", World.init) :=
  ((ticker_refresh_unchecked (fun k => Except.ok ⟨k⟩) 0 [⟨true, true, Case.first⟩]
    World.init).1 (by decide)).1

/-! ## Claims on the generate command and on main -/

/-- C2: for every argument list of the generate command whose count argument is
absent (read as the empty string), is rejected by `strconv.Atoi`, or parses to 0,
the action calls `amount` with count 1: it is the same call as with the argument
"1", no error comes from the argument, and with a working source and no
cancellation at the first check it returns nil after emitting one identifier.
The empty string and an absent argument are rejected by `strconv.Atoi`. -/
theorem generate_count_coerced (ctxDone : Nat → Bool) (src : Source) (fuel : Nat)
    (args : List String) (w : World)
    (h : (Atoi (argsGet args 0)).2 ≠ none ∨ (Atoi (argsGet args 0)).1 = 0) :
    effectiveCount args = 1
      ∧ generateAction ctxDone src fuel args w = amount ctxDone src 1 fuel w
      ∧ generateAction ctxDone src fuel args w = generateAction ctxDone src fuel ["1"] w
      ∧ argsGet [] 0 = "" ∧ (Atoi "").2 ≠ none
      ∧ (∀ u, ctxDone 0 = false → src 0 = Except.ok u → 2 ≤ fuel →
          generateAction ctxDone src fuel args World.init
            = (Outcome.returned none, ⟨[Line.id u], 1⟩)) := by
  have hc : effectiveCount args = 1 := by
    unfold effectiveCount
    simp only []
    rw [if_pos h]
  have h1 : effectiveCount ["1"] = 1 := by decide
  refine ⟨hc, ?_, ?_, by decide, by decide, ?_⟩
  · simp [generateAction, hc]
  · simp [generateAction, hc, h1]
  · intro u hd hs hf
    obtain ⟨g, rfl⟩ : ∃ g, fuel = g + 1 + 1 := ⟨fuel - 2, by omega⟩
    have hw : wrapInt (0 + 1) = 1 := by decide
    simp only [generateAction, hc, amount, World.init]
    rw [amountLoop]
    simp only [hd, printUUID, hs, hw]
    rw [amountLoop]
    cases hd1 : ctxDone (0 + 1) <;> simp

/-- Witness of C2: no argument, a word, the number 0, an out-of-range number. -/
theorem generate_count_coerced_witness :
    effectiveCount [] = 1 ∧ effectiveCount ["abc"] = 1 ∧ effectiveCount ["0"] = 1
      ∧ effectiveCount ["99999999999999999999"] = 1 :=
  ⟨(generate_count_coerced (fun _ => false) (fun k => Except.ok ⟨k⟩) 2 [] World.init
      (by decide)).1,
   (generate_count_coerced (fun _ => false) (fun k => Except.ok ⟨k⟩) 2 ["abc"] World.init
      (by decide)).1,
   (generate_count_coerced (fun _ => false) (fun k => Except.ok ⟨k⟩) 2 ["0"] World.init
      (by decide)).1,
   (generate_count_coerced (fun _ => false) (fun k => Except.ok ⟨k⟩) 2
      ["99999999999999999999"] World.init (by decide)).1⟩

/-- C5 as stated fails: with a source that fails, `amount` (command generate 1)
and `ticker` (default command, one tick) return the error, `main` prints it and
returns, and the exit status is 0. -/
theorem main_error_exit_counterexample :
    amount (fun _ => false) (fun _ => Except.error ⟨"no entropy"⟩) 1 2 World.init
        = (Outcome.returned (some ⟨"no entropy"⟩), ⟨[], 1⟩)
      ∧ main ⟨fun _ => false, fun _ => Except.error ⟨"no entropy"⟩, 2, []⟩
          (Command.generate ["1"])
        = ⟨[Line.text "error on run: no entropy"], some 0⟩
      ∧ main ⟨fun _ => false, fun _ => Except.error ⟨"no entropy"⟩, 2,
            [⟨false, true, Case.first⟩]⟩ (Command.infinite none none)
        = ⟨[Line.text "error on run: no entropy"], some 0⟩ := by
  decide

/-- C5, amended: if the loop run by the selected command returns an
identifier-source error, `main` prints "error on run: " followed by the error
and returns, so the exit status is 0; the exit status is 0 exactly when the
action returned, with nil or with an error, and 2 exactly when it panicked. -/
theorem main_exit_status (e : Env) (cmd : Command) :
    (∀ err w, appRun e cmd World.init = (Outcome.returned (some err), w) →
        main e cmd = ⟨w.out ++ [Line.text ("error on run: " ++ err.msg)], some 0⟩)
      ∧ ((main e cmd).exit = some 0 ↔ ∃ r, (appRun e cmd World.init).1 = Outcome.returned r)
      ∧ ((main e cmd).exit = some 2 ↔ ∃ msg, (appRun e cmd World.init).1 = Outcome.panicked msg)
      := by
  refine ⟨?_, ?_, ?_⟩
  · intro err w h
    simp [main, h]
  · rcases h : appRun e cmd World.init with ⟨o, w⟩
    cases o with
    | returned r => cases r <;> simp [main, h]
    | panicked msg => simp [main, h]
    | running => simp [main, h]
  · rcases h : appRun e cmd World.init with ⟨o, w⟩
    cases o with
    | returned r => cases r <;> simp [main, h]
    | panicked msg => simp [main, h]
    | running => simp [main, h]

/-- Witness of the amended C5: the generate command with a failing source. -/
theorem main_exit_status_witness :
    main ⟨fun _ => false, fun _ => Except.error ⟨"no entropy"⟩, 2, []⟩ (Command.generate ["1"])
      = ⟨([] : List Line) ++ [Line.text ("error on run: " ++ "no entropy")], some 0⟩ :=
  (main_exit_status ⟨fun _ => false, fun _ => Except.error ⟨"no entropy"⟩, 2, []⟩
    (Command.generate ["1"])).1 ⟨"no entropy"⟩ ⟨[], 1⟩ (by decide)

/-! ## Claims on the signal bridge -/

/-- Receipt of an interrupt by the listener, step by step: received at the select
(always so when the context is not yet cancelled) it cancels the context,
prints the shutdown notice and does not end the process; received at the second
receive it ends the process at once with status 1. In every run a forced exit
has status 1 and comes from an interrupt received at the second receive, and in
every run without teardown a listener still at its select finds the context not
cancelled. -/
theorem Bridge.listener_receipt (s : Bridge) (pick : Case)
    (hlive : s.exit = none) (hpend : s.pending = true) :
    (s.pc = PC.first → (s.ctxDone = false ∨ pick = Case.first) →
        s.step (Event.listener pick)
          = ⟨PC.second, false, s.notifying, true,
              s.out ++ [Line.text "received signal, start shutdown"], none⟩)
      ∧ (s.pc = PC.second →
          s.step (Event.listener pick)
            = ⟨PC.exited, false, s.notifying, s.ctxDone,
                s.out ++ [Line.text "received second signal, hard exit"], some 1⟩)
      ∧ (∀ evs : List Event, (handleSignals.run evs).exit ≠ none →
          ∃ pre p post, evs = pre ++ Event.listener p :: post
            ∧ (handleSignals.run pre).exit = none ∧ (handleSignals.run pre).pc = PC.second
            ∧ (handleSignals.run pre).pending = true ∧ (handleSignals.run evs).exit = some 1)
      ∧ (∀ evs : List Event, Event.teardown ∉ evs → (handleSignals.run evs).pc = PC.first →
          (handleSignals.run evs).ctxDone = false) := by
  rcases s with ⟨pc, pending, notifying, ctxDone, out, ex⟩
  simp only at hlive hpend
  subst hlive hpend
  refine ⟨?_, ?_, ?_, fun evs hno => Bridge.run_no_teardown evs handleSignals hno (fun _ => rfl)⟩
  · intro hpc hsel
    simp only at hpc hsel
    subst hpc
    rcases hsel with h | h
    · subst h; simp [Bridge.step, Bridge.listener, select2]
    · subst h; cases ctxDone <;> simp [Bridge.step, Bridge.listener, select2]
  · intro hpc
    simp only at hpc
    subst hpc
    simp [Bridge.step, Bridge.listener]
  · intro evs hex
    exact Bridge.run_exit evs handleSignals rfl hex

/-- C8: the listener evaluated where it departs from the stated behaviour. One
interrupt is delivered and the teardown runs before the listener is scheduled,
so both cases of its select are ready. If the select takes the signal case, the
interrupt is handled as the comment at line 124 says (first signal: notice
printed, context cancelled, no exit). If it takes the context-done case, the
receive at line 130 gets that same first interrupt, prints the notice of a
second signal and calls os.Exit(1): the only interrupt there was ends the
process with status 1, and the shutdown notice is never printed. -/
theorem listener_first_interrupt_hard_exit :
    [Event.interrupt, Event.teardown, Event.listener Case.second,
        Event.listener Case.first].count Event.interrupt = 1
      ∧ handleSignals.run [Event.interrupt, Event.teardown]
        = ⟨PC.first, true, false, true, [], none⟩
      ∧ handleSignals.run [Event.interrupt, Event.teardown, Event.listener Case.first,
          Event.listener Case.first]
        = ⟨PC.second, false, false, true,
            [Line.text "received signal, start shutdown"], none⟩
      ∧ handleSignals.run [Event.interrupt, Event.teardown, Event.listener Case.second,
          Event.listener Case.first]
        = ⟨PC.exited, false, false, true,
            [Line.text "received second signal, hard exit"], some 1⟩ := by
  decide

/-- C9 as stated fails: after the teardown with no interrupt before it, the
listener takes the context-done case and stands at its second receive; it has
neither returned nor exited, and later interrupts do not reach it. -/
theorem listener_teardown_counterexample :
    handleSignals.run [Event.teardown, Event.listener Case.first]
        = ⟨PC.second, false, false, true, [], none⟩
      ∧ handleSignals.run [Event.teardown, Event.listener Case.first, Event.interrupt,
          Event.listener Case.first, Event.interrupt, Event.listener Case.second]
        = ⟨PC.second, false, false, true, [], none⟩ := by
  decide

/-- C9, amended: if the teardown function runs before any interrupt has occurred,
then from the next time the listener is scheduled, and whatever happens
afterwards, the listener stands at its second receive with the channel empty,
the registration removed, nothing printed and no exit: it left the select by
the context-done case and stays blocked on the interrupt channel; before it is
scheduled it has not exited either. -/
theorem listener_after_teardown (pre mid post : List Event) (pick : Case)
    (hpre : Event.interrupt ∉ pre) :
    handleSignals.run (pre ++ Event.teardown :: (mid ++ Event.listener pick :: post))
        = ⟨PC.second, false, false, true, [], none⟩
      ∧ (handleSignals.run (pre ++ Event.teardown :: mid)).exit = none
      ∧ (handleSignals.run (pre ++ Event.teardown :: mid)).pc ≠ PC.exited := by
  obtain ⟨a, b, c, d⟩ := Bridge.run_quiet pre handleSignals hpre rfl rfl (by decide)
  have hs : (handleSignals.run pre).step Event.teardown = (handleSignals.run pre).cancel := by
    simp [Bridge.step, a]
  have key : ∀ evs, (handleSignals.run (pre ++ Event.teardown :: evs))
      = ((handleSignals.run pre).cancel).run evs := by
    intro evs
    rw [Bridge.run_append, Bridge.run_cons, hs]
  have hpc : ((handleSignals.run pre).cancel).pc ≠ PC.exited := by simpa [Bridge.cancel] using c
  have hout : ((handleSignals.run pre).cancel).out = [] := by
    simpa [Bridge.cancel, handleSignals] using d
  refine ⟨?_, ?_, ?_⟩
  · rw [key]
    obtain ⟨e1, e2, e3, e4, e5, _, e7⟩ :=
      Bridge.run_torn_down (mid ++ Event.listener pick :: post) ((handleSignals.run pre).cancel)
        (by simpa [Bridge.cancel] using a) (by simpa [Bridge.cancel] using b)
        (by simp [Bridge.cancel]) (by simp [Bridge.cancel]) hpc
    have e8 := e7 (Or.inr ⟨pick, by simp⟩)
    rw [hout] at e5
    rcases hr : ((handleSignals.run pre).cancel).run (mid ++ Event.listener pick :: post)
      with ⟨p1, p2, p3, p4, p5, p6⟩
    rw [hr] at e1 e2 e3 e4 e5 e8
    simp only at e1 e2 e3 e4 e5 e8
    subst e1 e2 e3 e4 e5 e8
    rfl
  · rw [key]
    exact (Bridge.run_torn_down mid ((handleSignals.run pre).cancel)
        (by simpa [Bridge.cancel] using a) (by simpa [Bridge.cancel] using b)
        (by simp [Bridge.cancel]) (by simp [Bridge.cancel]) hpc).1
  · rw [key]
    have h := (Bridge.run_torn_down mid ((handleSignals.run pre).cancel)
        (by simpa [Bridge.cancel] using a) (by simpa [Bridge.cancel] using b)
        (by simp [Bridge.cancel]) (by simp [Bridge.cancel]) hpc).2.2.2.2.2.1
    rcases h with h | h <;> simp [h]

/-- Witness of the amended C9: the listener is scheduled once before the
teardown, once after it, and interrupts follow. -/
theorem listener_after_teardown_witness :
    handleSignals.run ([Event.listener Case.first] ++ Event.teardown ::
        ([Event.interrupt] ++ Event.listener Case.second :: [Event.interrupt]))
      = ⟨PC.second, false, false, true, [], none⟩ :=
  (listener_after_teardown [Event.listener Case.first] [Event.interrupt] [Event.interrupt]
    Case.second (by decide)).1

end UUIDGen
